import Mathlib

/-!
Verification of the batch meta-transaction executor and the gas sponsorship
pool of contracts/BatchExecutor.sol (contracts BatchExecutor and GasSponsor).

Modeling conventions:
* uint256 values are modeled as Nat.  Every sum the sponsorship contract
  stores is first checked against a configured limit, so checked-overflow
  reverts are outside the operating range and are not modeled.
* keccak256 is modeled as an injective encoding of its field list (the
  collision-resistance idealization); the two type-hash constants become
  distinct tags.
* ecrecover is modeled by a signature record carrying the digest it was
  created over, the address it recovers to on that digest, and an arbitrary
  signature-dependent address (the stray field) that it recovers to on any
  other digest.  Recovering the zero address models the recovery failure
  that makes the contract revert.
* An external call is an oracle that sees the current nonce ledger and an
  abstract world state and returns a success flag and a new world state.
* A reverting transaction restores the pre-call contract state (EVM
  semantics of require and revert); the transaction wrappers executeBatch
  and claimCall encode exactly that by discarding the partial state.
-/

namespace BatchRelay

/-- keccak256 abstracted as an injective encoding of the abi-encoded field
list: collision resistance is idealized to injectivity. -/
def keccak256 : List Nat → Nat
  | [] => 0
  | a :: l => Nat.pair a (keccak256 l) + 1

/-- The EIP712Domain type hash, abstracted to a distinct tag. -/
def EIP712DOMAIN_TYPEHASH : Nat := keccak256 [0]

/-- The ForwardRequest type hash (REQUEST_TYPEHASH), abstracted to a distinct tag. -/
def REQUEST_TYPEHASH : Nat := keccak256 [1]

/-- EIP-712 domain parameters fixed at construction time: name and version
strings (as numeric codes), chain id, and the address of the deployed
instance. -/
structure Domain where
  name : Nat
  version : Nat
  chainId : Nat
  verifyingContract : Nat
deriving DecidableEq

/-- DOMAIN_SEPARATOR as computed by the BatchExecutor constructor. -/
def domainSeparator (d : Domain) : Nat :=
  keccak256 [EIP712DOMAIN_TYPEHASH, keccak256 [d.name], keccak256 [d.version],
    d.chainId, d.verifyingContract]

/-- The ForwardRequest struct.  The Solidity fields named from and to are
called fromAddr and toAddr because from and to are Lean keywords. -/
structure ForwardRequest where
  fromAddr : Nat
  toAddr : Nat
  value : Nat
  gas : Nat
  nonce : Nat
  data : List Nat
deriving DecidableEq

/-- Step 1 of verify: the EIP-712 struct hash of a request. -/
def structHash (req : ForwardRequest) : Nat :=
  keccak256 [REQUEST_TYPEHASH, req.fromAddr, req.toAddr, req.value, req.gas,
    req.nonce, keccak256 req.data]

/-- Step 2 of verify: the final digest.  The two prefix bytes 0x19 0x01 of
abi.encodePacked are the leading tag 6401. -/
def digest (ds : Nat) (req : ForwardRequest) : Nat :=
  keccak256 [6401, ds, structHash req]

/-- A 65-byte recoverable signature, idealized: it records its byte length,
the digest it was produced over, the address recovered on that digest, and
the arbitrary address ecrecover yields on any other digest. -/
structure Sig where
  len : Nat
  signer : Nat
  signedDigest : Nat
  stray : Nat → Nat

/-- Idealized ecrecover: the recorded signer on the signed digest, an
arbitrary signature-dependent address otherwise. -/
def ecrecover (d : Nat) (sig : Sig) : Nat :=
  if d = sig.signedDigest then sig.signer else sig.stray d

deriving instance DecidableEq for Except

/-- Errors with which a BatchExecutor call reverts. -/
inductive BatchErr
  | lengthMismatch
  | emptyBatch
  | invalidSignatureOrNonce
  | invalidSignatureLength
  | invalidSignature
deriving DecidableEq

/-- The internal signature recovery: reverts unless the signature is 65
bytes and the recovered signer is nonzero. -/
def recoverSigner (d : Nat) (sig : Sig) : Except BatchErr Nat :=
  if sig.len ≠ 65 then Except.error BatchErr.invalidSignatureLength
  else if ecrecover d sig = 0 then Except.error BatchErr.invalidSignature
  else Except.ok (ecrecover d sig)

/-- verify(req, signature): recover the signer of the digest and check it
against req.fromAddr and the nonce ledger.  Propagates the reverts of
recoverSigner. -/
def verify (ds : Nat) (nonces : Nat → Nat) (req : ForwardRequest) (sig : Sig) :
    Except BatchErr Bool :=
  match recoverSigner (digest ds req) sig with
  | Except.error e => Except.error e
  | Except.ok signer =>
      Except.ok (signer == req.fromAddr && req.nonce == nonces req.fromAddr)

/-- Pointwise update of a keyed store (a Solidity mapping write). -/
def upd (m : Nat → Nat) (k v : Nat) : Nat → Nat :=
  fun x => if x = k then v else m x

/-- Contract state of BatchExecutor: the nonce ledger plus an abstract
world state holding everything a target call can affect. -/
structure ExecState where
  nonces : Nat → Nat
  world : Nat

/-- An external call oracle: receives the nonce ledger as observable by the
target, the world, the target address, gas, value and calldata, and returns
the success flag together with the new world. -/
abbrev CallOracle := (Nat → Nat) → Nat → Nat → Nat → Nat → List Nat → Bool × Nat

/-- The internal single-request executor: writes nonce + 1 into the ledger
and only then performs the external call, passing the updated ledger to the
oracle and appending the sender to the calldata. -/
def executeRequest (call : CallOracle) (st : ExecState) (req : ForwardRequest) :
    Bool × ExecState :=
  let nonces' := upd st.nonces req.fromAddr (req.nonce + 1)
  let r := call nonces' st.world req.toAddr req.gas req.value (req.data ++ [req.fromAddr])
  (r.1, ⟨nonces', r.2⟩)

/-- The raw execution of the loop body of executeBatch: verify each item in
order; a failed verification stops with an error and the partial state, a
verified item consumes its nonce and invokes the target, recording the
per-item outcome. -/
def batchRun (call : CallOracle) (ds : Nat) (st : ExecState) :
    List (ForwardRequest × Sig) → Option BatchErr × ExecState × List Bool
  | [] => (none, st, [])
  | (req, sig) :: rest =>
    match verify ds st.nonces req sig with
    | Except.error e => (some e, st, [])
    | Except.ok false => (some BatchErr.invalidSignatureOrNonce, st, [])
    | Except.ok true =>
      let r := executeRequest call st req
      let t := batchRun call ds r.2 rest
      (t.1, t.2.1, r.1 :: t.2.2)

/-- executeBatch as a transaction: the length checks, then the loop; any
revert discards every partial effect and leaves the pre-call state. -/
def executeBatch (call : CallOracle) (ds : Nat) (st : ExecState)
    (reqs : List ForwardRequest) (sigs : List Sig) :
    Except BatchErr (List Bool) × ExecState :=
  if reqs.length ≠ sigs.length then (Except.error BatchErr.lengthMismatch, st)
  else if reqs.length = 0 then (Except.error BatchErr.emptyBatch, st)
  else
    match batchRun call ds st (reqs.zip sigs) with
    | (some e, _, _) => (Except.error e, st)
    | (none, st', rs) => (Except.ok rs, st')

/-- getNonce. -/
def getNonce (st : ExecState) (a : Nat) : Nat := st.nonces a

/-- The state reached after sequentially executing (consuming and invoking)
a list of items, ignoring verification: used to name the intermediate states
of a run. -/
def loopState (call : CallOracle) (st : ExecState)
    (items : List (ForwardRequest × Sig)) : ExecState :=
  items.foldl (fun s p => (executeRequest call s p.1).2) st

/-- Concrete domain used by the witnesses: BatchExecutor, version 1, the
Sepolia chain id, instance address 99. -/
def wDom : Domain := ⟨10, 1, 11155111, 99⟩

def wDS : Nat := domainSeparator wDom

/-- A second domain differing only in the instance address. -/
def wDom8 : Domain := ⟨10, 1, 11155111, 98⟩

/-- A call oracle that always succeeds and leaves the world unchanged. -/
def wCall : CallOracle := fun _ w _ _ _ _ => (true, w)

def wSt : ExecState := ⟨fun _ => 0, 0⟩

def wReq1 : ForwardRequest := ⟨2, 3, 0, 100, 0, [7]⟩

def wSig1 : Sig := ⟨65, 2, digest wDS wReq1, fun _ => 1⟩

/-- A second request of the same sender with a nonce that is wrong once the
first item has executed. -/
def wReq2 : ForwardRequest := ⟨2, 3, 0, 100, 5, [8]⟩

def wSig2 : Sig := ⟨65, 2, digest wDS wReq2, fun _ => 1⟩

def wSt7 : ExecState := ⟨fun _ => 5, 0⟩

def wReq7 : ForwardRequest := ⟨2, 3, 0, 100, 3, [7]⟩

def wSig7 : Sig := ⟨65, 2, digest wDS wReq7, fun _ => 1⟩

/-- Errors with which a GasSponsor call reverts.  divisionByZero is the
arithmetic panic Solidity 0.8 raises when dividing by a zero beneficiary
count; zeroBeneficiaries is the explicit error the specification names and
the code never raises. -/
inductive ClaimErr
  | notWhitelisted
  | paused
  | relayerDailyLimit
  | divisionByZero
  | zeroBeneficiaries
  | userDailyLimit
  | globalDailyLimit
  | insufficientPool
  | transferFailed
  | zeroDeposit
deriving DecidableEq

/-- Events GasSponsor emits, as observable records. -/
inductive Event
  | deposited (sponsor amount : Nat)
  | claimed (relayer amount : Nat) (users : List Nat) (batchSize : Nat)
deriving DecidableEq

/-- Contract state of GasSponsor.  balance is address(this).balance; log is
the append-only event record. -/
structure SponsorState where
  owner : Nat
  paused : Bool
  whitelistedRelayers : Nat → Bool
  maxPerClaim : Nat
  dailyLimitPerRelayer : Nat
  dailyLimitPerUser : Nat
  globalDailyLimit : Nat
  relayerDailyClaimed : Nat → Nat
  relayerLastClaimDay : Nat → Nat
  userDailySponsored : Nat → Nat
  userLastSponsorDay : Nat → Nat
  globalDailyClaimed : Nat
  globalLastClaimDay : Nat
  totalDeposited : Nat
  totalClaimed : Nat
  totalClaimCount : Nat
  balance : Nat
  log : List Event

/-- Step 1 of claim: cap the requested amount at maxPerClaim. -/
def capReimb (maxPerClaim amount : Nat) : Nat :=
  if amount > maxPerClaim then maxPerClaim else amount

/-- The value of a day-windowed counter as seen after the lazy reset: zero
when the stored day is old, the stored value otherwise. -/
def effV (m lastDay : Nat → Nat) (today u : Nat) : Nat :=
  if lastDay u < today then 0 else m u

/-- The lazily reset global counter. -/
def effGlobal (st : SponsorState) (today : Nat) : Nat :=
  if st.globalLastClaimDay < today then 0 else st.globalDailyClaimed

/-- Step 3 of claim, as executed: walk the beneficiaries, lazily resetting
each day-stamped counter and requiring the incremented value under the
per-user limit; returns the error, if any, and the mutated counter maps. -/
def userCheckRun (limit today q : Nat) :
    (Nat → Nat) → (Nat → Nat) → List Nat → Option ClaimErr × (Nat → Nat) × (Nat → Nat)
  | uds, uls, [] => (none, uds, uls)
  | uds, uls, u :: rest =>
    let uds1 := if uls u < today then upd uds u 0 else uds
    let uls1 := if uls u < today then upd uls u today else uls
    if uds1 u + q ≤ limit then userCheckRun limit today q uds1 uls1 rest
    else (some ClaimErr.userDailyLimit, uds1, uls1)

/-- Step 6 of claim, the per-beneficiary credit loop: add q to the counter
of each list entry, once per occurrence. -/
def creditUsers (q : Nat) : (Nat → Nat) → List Nat → Nat → Nat
  | m, [] => m
  | m, u :: rest => creditUsers q (upd m u (m u + q)) rest

/-- The raw execution of claim(amount, users) by sender at day today; tOk
tells whether the final value transfer to the sender succeeds.  Returns the
error, if any, together with the state as mutated up to that point; the
revert that restores the pre-call state is applied by claimCall. -/
def claimRun (st : SponsorState) (sender today amount : Nat) (users : List Nat)
    (tOk : Bool) : Option ClaimErr × SponsorState :=
  if st.whitelistedRelayers sender = false then (some ClaimErr.notWhitelisted, st)
  else if st.paused = true then (some ClaimErr.paused, st)
  else
    let reimb := capReimb st.maxPerClaim amount
    let rdc := if st.relayerLastClaimDay sender < today
      then upd st.relayerDailyClaimed sender 0 else st.relayerDailyClaimed
    let rld := if st.relayerLastClaimDay sender < today
      then upd st.relayerLastClaimDay sender today else st.relayerLastClaimDay
    let st1 := {st with relayerDailyClaimed := rdc, relayerLastClaimDay := rld}
    if rdc sender + reimb > st.dailyLimitPerRelayer
    then (some ClaimErr.relayerDailyLimit, st1)
    else if users.length = 0 then (some ClaimErr.divisionByZero, st1)
    else
      let q := reimb / users.length
      match userCheckRun st.dailyLimitPerUser today q
          st.userDailySponsored st.userLastSponsorDay users with
      | (some e, uds2, uls2) =>
        (some e, {st1 with userDailySponsored := uds2, userLastSponsorDay := uls2})
      | (none, uds2, uls2) =>
        let gdc := if st.globalLastClaimDay < today then 0 else st.globalDailyClaimed
        let gld := if st.globalLastClaimDay < today then today else st.globalLastClaimDay
        let st2 := {st1 with userDailySponsored := uds2, userLastSponsorDay := uls2,
                             globalDailyClaimed := gdc, globalLastClaimDay := gld}
        if gdc + reimb > st.globalDailyLimit then (some ClaimErr.globalDailyLimit, st2)
        else if st.balance < reimb then (some ClaimErr.insufficientPool, st2)
        else
          let st3 := {st2 with
            relayerDailyClaimed := upd rdc sender (rdc sender + reimb),
            userDailySponsored := creditUsers q uds2 users,
            globalDailyClaimed := gdc + reimb,
            totalClaimed := st.totalClaimed + reimb,
            totalClaimCount := st.totalClaimCount + 1}
          if tOk = false then (some ClaimErr.transferFailed, st3)
          else (none, {st3 with
            balance := st.balance - reimb,
            log := st.log ++ [Event.claimed sender reimb users users.length]})

/-- claim as a transaction: a revert discards every partial write and
leaves the pre-call state (EVM semantics). -/
def claimCall (st : SponsorState) (sender today amount : Nat) (users : List Nat)
    (tOk : Bool) : Option ClaimErr × SponsorState :=
  match claimRun st sender today amount users tOk with
  | (some e, _) => (some e, st)
  | (none, st') => (none, st')

/-- The read-only per-user loop of estimateReimbursement. -/
def estUserCheck (limit today q : Nat) (uds uls : Nat → Nat) : List Nat → Bool
  | [] => true
  | u :: rest =>
    let userClaimed := if uls u < today then 0 else uds u
    if userClaimed + q > limit then false else estUserCheck limit today q uds uls rest

/-- estimateReimbursement(amount, relayer, users): replays the checks with
no mutation, in the source order cap, balance, relayer, global, split,
per-user; the split still divides by the beneficiary count, so an empty
list reverts with the arithmetic panic once the first three checks pass. -/
def estimateReimbursement (st : SponsorState) (relayer today amount : Nat)
    (users : List Nat) : Except ClaimErr (Nat × Bool) :=
  let reimb := capReimb st.maxPerClaim amount
  if st.balance < reimb then Except.ok (0, false)
  else
    let relayerClaimed := if st.relayerLastClaimDay relayer < today
      then 0 else st.relayerDailyClaimed relayer
    if relayerClaimed + reimb > st.dailyLimitPerRelayer then Except.ok (0, false)
    else
      let globalClaimed := if st.globalLastClaimDay < today then 0 else st.globalDailyClaimed
      if globalClaimed + reimb > st.globalDailyLimit then Except.ok (0, false)
      else if users.length = 0 then Except.error ClaimErr.divisionByZero
      else
        let q := reimb / users.length
        if estUserCheck st.dailyLimitPerUser today q
            st.userDailySponsored st.userLastSponsorDay users
        then Except.ok (reimb, true)
        else Except.ok (0, false)

/-- deposit(): rejects a zero msg.value, otherwise adds to the pool and to
totalDeposited and emits Deposited. -/
def deposit (st : SponsorState) (sender msgValue : Nat) : Except ClaimErr SponsorState :=
  if msgValue = 0 then Except.error ClaimErr.zeroDeposit
  else Except.ok {st with totalDeposited := st.totalDeposited + msgValue,
                          balance := st.balance + msgValue,
                          log := st.log ++ [Event.deposited sender msgValue]}

/-- The receive() fallback: accepts any plain transfer, with no zero check,
still adding to totalDeposited and emitting Deposited. -/
def receiveEth (st : SponsorState) (sender msgValue : Nat) : SponsorState :=
  {st with totalDeposited := st.totalDeposited + msgValue,
           balance := st.balance + msgValue,
           log := st.log ++ [Event.deposited sender msgValue]}

/-- A sponsor state whose per-user daily limit is zero, so the
per-beneficiary check fails after the relayer day-stamp write. -/
def stW : SponsorState :=
  { owner := 0, paused := false, whitelistedRelayers := fun _ => true,
    maxPerClaim := 50, dailyLimitPerRelayer := 1000, dailyLimitPerUser := 0,
    globalDailyLimit := 1000, relayerDailyClaimed := fun _ => 0,
    relayerLastClaimDay := fun _ => 0, userDailySponsored := fun _ => 0,
    userLastSponsorDay := fun _ => 0, globalDailyClaimed := 0,
    globalLastClaimDay := 0, totalDeposited := 100, totalClaimed := 0,
    totalClaimCount := 0, balance := 100, log := [] }

/-- A sponsor state with a small per-claim cap and roomy daily limits. -/
def stC5 : SponsorState :=
  { owner := 0, paused := false, whitelistedRelayers := fun _ => true,
    maxPerClaim := 5, dailyLimitPerRelayer := 1000, dailyLimitPerUser := 1000,
    globalDailyLimit := 1000, relayerDailyClaimed := fun _ => 0,
    relayerLastClaimDay := fun _ => 0, userDailySponsored := fun _ => 0,
    userLastSponsorDay := fun _ => 0, globalDailyClaimed := 0,
    globalLastClaimDay := 0, totalDeposited := 100, totalClaimed := 0,
    totalClaimCount := 0, balance := 100, log := [] }

theorem keccak256_injective : ∀ {l₁ l₂ : List Nat}, keccak256 l₁ = keccak256 l₂ → l₁ = l₂
  | [], [], _ => rfl
  | [], _ :: _, h => by simp [keccak256] at h
  | _ :: _, [], h => by simp [keccak256] at h
  | a :: l₁, b :: l₂, h => by
    simp only [keccak256, Nat.add_right_cancel_iff, Nat.pair_eq_pair] at h
    rw [h.1, keccak256_injective h.2]

theorem loopState_nil (call : CallOracle) (st : ExecState) : loopState call st [] = st := rfl

theorem loopState_cons (call : CallOracle) (st : ExecState) (p : ForwardRequest × Sig)
    (l : List (ForwardRequest × Sig)) :
    loopState call st (p :: l) = loopState call (executeRequest call st p.1).2 l := rfl

theorem loopState_take_succ (call : CallOracle) (st : ExecState)
    (items : List (ForwardRequest × Sig)) (i : Nat) (hi : i < items.length) :
    loopState call st (items.take (i + 1))
      = (executeRequest call (loopState call st (items.take i)) (items.get ⟨i, hi⟩).1).2 := by
  rw [List.take_succ, List.getElem?_eq_getElem hi]
  unfold loopState
  rw [List.foldl_append]
  simp [List.get_eq_getElem]

theorem verify_ok_true_nonce (ds : Nat) (nonces : Nat → Nat) (req : ForwardRequest) (sig : Sig)
    (hv : verify ds nonces req sig = Except.ok true) :
    req.nonce = nonces req.fromAddr := by
  unfold verify at hv
  cases hrs : recoverSigner (digest ds req) sig with
  | error e => rw [hrs] at hv; exact absurd hv (by simp)
  | ok s =>
    rw [hrs] at hv
    have hb : (s == req.fromAddr && req.nonce == nonces req.fromAddr) = true := by
      injection hv
    simp only [Bool.and_eq_true, beq_iff_eq] at hb
    exact hb.2

theorem batchRun_none_verify (call : CallOracle) (ds : Nat) :
    ∀ (items : List (ForwardRequest × Sig)) (st st₂ : ExecState) (rs : List Bool),
      batchRun call ds st items = (none, st₂, rs) →
      ∀ i, (hi : i < items.length) →
        verify ds (loopState call st (items.take i)).nonces
          (items.get ⟨i, hi⟩).1 (items.get ⟨i, hi⟩).2 = Except.ok true := by
  intro items
  induction items with
  | nil => intro st st₂ rs h i hi; simp at hi
  | cons p rest ih =>
    intro st st₂ rs h i hi
    obtain ⟨req, sig⟩ := p
    cases hv : verify ds st.nonces req sig with
    | error e => rw [batchRun, hv] at h; simp at h
    | ok b =>
      cases b with
      | false => rw [batchRun, hv] at h; simp at h
      | true =>
        simp only [batchRun, hv] at h
        rcases hbr : batchRun call ds (executeRequest call st req).2 rest with ⟨eo, stF, rs'⟩
        rw [hbr] at h
        simp only [Prod.mk.injEq] at h
        obtain ⟨h1, h2, h3⟩ := h
        cases i with
        | zero => simpa [loopState] using hv
        | succ j =>
          have hj : j < rest.length := Nat.lt_of_succ_lt_succ hi
          have hrest : batchRun call ds (executeRequest call st req).2 rest = (none, stF, rs') := by
            rw [hbr, h1]
          have := ih (executeRequest call st req).2 stF rs' hrest j hj
          simpa [List.take_succ_cons, loopState_cons] using this

/-- C1: a batch holding one item that fails verification at its position in
the sequential run is rejected as a whole: executeBatch reverts and the
post-transaction state (nonce ledger and world) is exactly the pre-call
state, however many earlier items had verified and executed. -/
theorem executeBatch_allOrNothing (call : CallOracle) (ds : Nat) (st : ExecState)
    (reqs : List ForwardRequest) (sigs : List Sig) (i : Nat)
    (hi : i < (reqs.zip sigs).length)
    (hfail : verify ds (loopState call st ((reqs.zip sigs).take i)).nonces
        ((reqs.zip sigs).get ⟨i, hi⟩).1 ((reqs.zip sigs).get ⟨i, hi⟩).2 ≠ Except.ok true) :
    ∃ e, executeBatch call ds st reqs sigs = (Except.error e, st) := by
  unfold executeBatch
  by_cases h1 : reqs.length ≠ sigs.length
  · rw [if_pos h1]; exact ⟨_, rfl⟩
  · rw [if_neg h1]
    by_cases h2 : reqs.length = 0
    · rw [if_pos h2]; exact ⟨_, rfl⟩
    · rw [if_neg h2]
      rcases hbr : batchRun call ds st (reqs.zip sigs) with ⟨eo, stF, rs⟩
      cases eo with
      | some e => exact ⟨e, rfl⟩
      | none => exact absurd (batchRun_none_verify call ds _ st stF rs hbr i hi) hfail

/-- C3: a request whose signature recovers its sender and whose nonce equals
the ledger entry executes: the ledger entry is set to nonce + 1 and the
target call observes the already-updated ledger (consumption precedes
invocation); the batch succeeds and the sender nonce has increased by
exactly one, whatever success flag the target call returns.  The last
conjunct generalizes to any successful batch: each verified item, at its
position, raises the ledger entry of its sender by exactly one. -/
theorem executeBatch_consumes_before_call (call : CallOracle) (ds : Nat) (st : ExecState)
    (req : ForwardRequest) (sig : Sig)
    (hlen : sig.len = 65)
    (hrec : ecrecover (digest ds req) sig = req.fromAddr)
    (h0 : req.fromAddr ≠ 0)
    (hnonce : req.nonce = st.nonces req.fromAddr) :
    executeBatch call ds st [req] [sig] =
      (Except.ok [(call (upd st.nonces req.fromAddr (req.nonce + 1)) st.world req.toAddr
          req.gas req.value (req.data ++ [req.fromAddr])).1],
        ⟨upd st.nonces req.fromAddr (req.nonce + 1),
         (call (upd st.nonces req.fromAddr (req.nonce + 1)) st.world req.toAddr
          req.gas req.value (req.data ++ [req.fromAddr])).2⟩) ∧
    upd st.nonces req.fromAddr (req.nonce + 1) req.fromAddr = st.nonces req.fromAddr + 1 ∧
    (∀ (st0 : ExecState) (items : List (ForwardRequest × Sig)) (stF : ExecState)
        (rs : List Bool) (i : Nat) (hi : i < items.length),
      batchRun call ds st0 items = (none, stF, rs) →
      (loopState call st0 (items.take (i + 1))).nonces (items.get ⟨i, hi⟩).1.fromAddr
        = (loopState call st0 (items.take i)).nonces (items.get ⟨i, hi⟩).1.fromAddr + 1) := by
  have hrs : recoverSigner (digest ds req) sig = Except.ok req.fromAddr := by
    unfold recoverSigner
    rw [if_neg (by simp [hlen]), hrec, if_neg h0]
  have hv : verify ds st.nonces req sig = Except.ok true := by
    unfold verify
    rw [hrs]
    simp [hnonce]
  refine ⟨?_, ?_, ?_⟩
  · unfold executeBatch
    rw [if_neg (by simp), if_neg (by simp)]
    simp [batchRun, hv, executeRequest]
  · simp [upd, hnonce]
  · intro st0 items stF rs i hi hbr
    have hvi := batchRun_none_verify call ds items st0 stF rs hbr i hi
    have hn := verify_ok_true_nonce ds _ _ _ hvi
    rw [loopState_take_succ call st0 items i hi]
    show upd (loopState call st0 (items.take i)).nonces (items.get ⟨i, hi⟩).1.fromAddr
        ((items.get ⟨i, hi⟩).1.nonce + 1) (items.get ⟨i, hi⟩).1.fromAddr = _
    simp only [upd]
    rw [if_pos trivial, hn]

theorem batchRun_consumed_some (call : CallOracle) (ds : Nat) :
    ∀ (items : List (ForwardRequest × Sig)) (st : ExecState) (req : ForwardRequest) (sig : Sig),
      (req, sig) ∈ items → req.nonce < st.nonces req.fromAddr →
      ∃ e, (batchRun call ds st items).1 = some e := by
  intro items
  induction items with
  | nil => intro st req sig hmem; simp at hmem
  | cons p rest ih =>
    intro st req sig hmem hlt
    obtain ⟨r, g⟩ := p
    cases hv : verify ds st.nonces r g with
    | error e => exact ⟨e, by simp [batchRun, hv]⟩
    | ok b =>
      cases b with
      | false => exact ⟨BatchErr.invalidSignatureOrNonce, by simp [batchRun, hv]⟩
      | true =>
        have hrn : r.nonce = st.nonces r.fromAddr := verify_ok_true_nonce ds st.nonces r g hv
        rcases List.mem_cons.mp hmem with heq | hmem2
        · have h1 : req = r := congrArg Prod.fst heq
          rw [h1] at hlt
          exact absurd hrn (Nat.ne_of_lt hlt)
        · have hlt2 : req.nonce < ((executeRequest call st r).2).nonces req.fromAddr := by
            show req.nonce < upd st.nonces r.fromAddr (r.nonce + 1) req.fromAddr
            unfold upd
            by_cases hfa : req.fromAddr = r.fromAddr
            · rw [if_pos hfa, hrn]
              calc req.nonce < st.nonces req.fromAddr := hlt
                _ ≤ st.nonces r.fromAddr + 1 := by rw [hfa]; exact Nat.le_succ _
            · rw [if_neg hfa]; exact hlt
          obtain ⟨e, he⟩ := ih (executeRequest call st r).2 req sig hmem2 hlt2
          exact ⟨e, by simp [batchRun, hv]; exact he⟩

/-- C7: if the ledger entry of the sender is already past the request nonce
(the pair was consumed), verify returns false (given the signature is well
formed: 65 bytes, nonzero recovery) and every batch containing the pair is
rejected with the pre-call state intact. -/
theorem consumed_pair_always_rejected (ds : Nat) (st : ExecState)
    (req : ForwardRequest) (sig : Sig)
    (hlt : req.nonce < st.nonces req.fromAddr)
    (hlen : sig.len = 65)
    (h0 : ecrecover (digest ds req) sig ≠ 0) :
    verify ds st.nonces req sig = Except.ok false ∧
    ∀ (call : CallOracle) (reqs : List ForwardRequest) (sigs : List Sig),
      (req, sig) ∈ reqs.zip sigs →
      ∃ e, executeBatch call ds st reqs sigs = (Except.error e, st) := by
  constructor
  · have hrs : recoverSigner (digest ds req) sig =
        Except.ok (ecrecover (digest ds req) sig) := by
      unfold recoverSigner
      rw [if_neg (by simp [hlen]), if_neg h0]
    unfold verify
    rw [hrs]
    have hb : (req.nonce == st.nonces req.fromAddr) = false :=
      beq_eq_false_iff_ne.mpr (Nat.ne_of_lt hlt)
    simp [hb]
  · intro call reqs sigs hmem
    unfold executeBatch
    by_cases h1 : reqs.length ≠ sigs.length
    · rw [if_pos h1]; exact ⟨_, rfl⟩
    · rw [if_neg h1]
      by_cases h2 : reqs.length = 0
      · rw [if_pos h2]; exact ⟨_, rfl⟩
      · rw [if_neg h2]
        obtain ⟨e, he⟩ := batchRun_consumed_some call ds (reqs.zip sigs) st req sig hmem hlt
        rcases hbr : batchRun call ds st (reqs.zip sigs) with ⟨eo, stF, rs⟩
        rw [hbr] at he
        simp only at he
        rw [he]
        exact ⟨e, rfl⟩

theorem domainSeparator_injective {D D' : Domain}
    (h : domainSeparator D = domainSeparator D') : D = D' := by
  unfold domainSeparator at h
  have h2 := keccak256_injective h
  simp only [List.cons.injEq, and_true] at h2
  obtain ⟨-, hn, hv, hc, hvc⟩ := h2
  have hn' := keccak256_injective hn
  have hv' := keccak256_injective hv
  simp only [List.cons.injEq, and_true] at hn' hv'
  cases D; cases D'; simp_all

/-- C8: a well-formed signature produced under different domain parameters
(name, version, chain id or contract address) makes verify return false
without reverting, under the idealization that recovery on a different
digest yields an address that is neither zero nor the claimed sender. -/
theorem verify_wrong_domain (D Dp : Domain) (hD : D ≠ Dp) (nonces : Nat → Nat)
    (req : ForwardRequest) (sig : Sig)
    (hlen : sig.len = 65)
    (hsigned : sig.signedDigest = digest (domainSeparator Dp) req)
    (hstray : ∀ d, d ≠ sig.signedDigest → sig.stray d ≠ 0 ∧ sig.stray d ≠ req.fromAddr) :
    verify (domainSeparator D) nonces req sig = Except.ok false := by
  have hdig : digest (domainSeparator D) req ≠ sig.signedDigest := by
    rw [hsigned]
    intro hcontra
    unfold digest at hcontra
    have h2 := keccak256_injective hcontra
    simp only [List.cons.injEq] at h2
    exact hD (domainSeparator_injective h2.2.1)
  have hrec : ecrecover (digest (domainSeparator D) req) sig =
      sig.stray (digest (domainSeparator D) req) := by
    unfold ecrecover; rw [if_neg hdig]
  obtain ⟨hs0, hsf⟩ := hstray _ hdig
  have hrs : recoverSigner (digest (domainSeparator D) req) sig =
      Except.ok (sig.stray (digest (domainSeparator D) req)) := by
    unfold recoverSigner
    rw [if_neg (by simp [hlen]), hrec, if_neg hs0]
  unfold verify
  rw [hrs]
  have hb : (sig.stray (digest (domainSeparator D) req) == req.fromAddr) = false :=
    beq_eq_false_iff_ne.mpr hsf
  simp [hb]

theorem executeBatch_allOrNothing_witness :
    (verify wDS (loopState wCall wSt (([wReq1, wReq2].zip [wSig1, wSig2]).take 1)).nonces
        (([wReq1, wReq2].zip [wSig1, wSig2]).get ⟨1, by decide⟩).1
        (([wReq1, wReq2].zip [wSig1, wSig2]).get ⟨1, by decide⟩).2 ≠ Except.ok true) ∧
    ∃ e, executeBatch wCall wDS wSt [wReq1, wReq2] [wSig1, wSig2] = (Except.error e, wSt) :=
  ⟨by decide, executeBatch_allOrNothing wCall wDS wSt [wReq1, wReq2] [wSig1, wSig2] 1
    (by decide) (by decide)⟩

theorem executeBatch_consumes_before_call_witness :
    wSig1.len = 65 ∧ ecrecover (digest wDS wReq1) wSig1 = wReq1.fromAddr ∧
    wReq1.fromAddr ≠ 0 ∧ wReq1.nonce = wSt.nonces wReq1.fromAddr ∧
    (executeBatch wCall wDS wSt [wReq1] [wSig1] =
      (Except.ok [(wCall (upd wSt.nonces wReq1.fromAddr (wReq1.nonce + 1)) wSt.world wReq1.toAddr
          wReq1.gas wReq1.value (wReq1.data ++ [wReq1.fromAddr])).1],
        ⟨upd wSt.nonces wReq1.fromAddr (wReq1.nonce + 1),
         (wCall (upd wSt.nonces wReq1.fromAddr (wReq1.nonce + 1)) wSt.world wReq1.toAddr
          wReq1.gas wReq1.value (wReq1.data ++ [wReq1.fromAddr])).2⟩) ∧
      upd wSt.nonces wReq1.fromAddr (wReq1.nonce + 1) wReq1.fromAddr =
        wSt.nonces wReq1.fromAddr + 1 ∧
      (∀ (st0 : ExecState) (items : List (ForwardRequest × Sig)) (stF : ExecState)
          (rs : List Bool) (i : Nat) (hi : i < items.length),
        batchRun wCall wDS st0 items = (none, stF, rs) →
        (loopState wCall st0 (items.take (i + 1))).nonces (items.get ⟨i, hi⟩).1.fromAddr
          = (loopState wCall st0 (items.take i)).nonces (items.get ⟨i, hi⟩).1.fromAddr + 1)) :=
  ⟨by decide, by decide, by decide, by decide,
    executeBatch_consumes_before_call wCall wDS wSt wReq1 wSig1
      (by decide) (by decide) (by decide) (by decide)⟩

theorem consumed_pair_always_rejected_witness :
    wReq7.nonce < wSt7.nonces wReq7.fromAddr ∧
    verify wDS wSt7.nonces wReq7 wSig7 = Except.ok false ∧
    ∃ e, executeBatch wCall wDS wSt7 [wReq7] [wSig7] = (Except.error e, wSt7) :=
  ⟨by decide,
    (consumed_pair_always_rejected wDS wSt7 wReq7 wSig7 (by decide) (by decide) (by decide)).1,
    (consumed_pair_always_rejected wDS wSt7 wReq7 wSig7 (by decide) (by decide) (by decide)).2
      wCall [wReq7] [wSig7] (List.Mem.head _)⟩

theorem verify_wrong_domain_witness :
    wDom8 ≠ wDom ∧ wSig1.signedDigest = digest (domainSeparator wDom) wReq1 ∧
    verify (domainSeparator wDom8) (fun _ => 0) wReq1 wSig1 = Except.ok false :=
  ⟨by decide, rfl,
    verify_wrong_domain wDom8 wDom (by decide) (fun _ => 0) wReq1 wSig1 (by decide) rfl
      (fun _ _ => ⟨by simp [wSig1], by simp [wSig1, wReq1]⟩)⟩

theorem reset_read (uds uls : Nat → Nat) (today u : Nat) :
    (if uls u < today then upd uds u 0 else uds) u = effV uds uls today u := by
  by_cases hu : uls u < today
  · simp [hu, upd, effV]
  · simp [hu, effV]

theorem effV_reset (uds uls : Nat → Nat) (today u : Nat) :
    ∀ x, effV (if uls u < today then upd uds u 0 else uds)
           (if uls u < today then upd uls u today else uls) today x
         = effV uds uls today x := by
  intro x
  by_cases hu : uls u < today
  · rw [if_pos hu, if_pos hu]
    by_cases hx : x = u
    · subst hx
      simp [effV, upd, hu, Nat.lt_irrefl]
    · simp [effV, upd, hx]
  · rw [if_neg hu, if_neg hu]

theorem estUserCheck_true_iff (limit today q : Nat) (uds uls : Nat → Nat) :
    ∀ l : List Nat, estUserCheck limit today q uds uls l = true ↔
      ∀ u ∈ l, effV uds uls today u + q ≤ limit := by
  intro l
  induction l with
  | nil => simp [estUserCheck]
  | cons u rest ih =>
    show (if effV uds uls today u + q > limit then false
          else estUserCheck limit today q uds uls rest) = true ↔ _
    by_cases hc : effV uds uls today u + q > limit
    · rw [if_pos hc]
      constructor
      · intro h; exact absurd h (by simp)
      · intro h
        exact absurd (h u (List.mem_cons_self u rest)) (Nat.not_le.mpr hc)
    · rw [if_neg hc, ih]
      constructor
      · intro h v hv
        rcases List.mem_cons.mp hv with rfl | hv2
        · exact Nat.not_lt.mp hc
        · exact h v hv2
      · intro h v hv; exact h v (List.mem_cons_of_mem _ hv)

theorem userCheckRun_none_iff (limit today q : Nat) :
    ∀ (l : List Nat) (uds uls : Nat → Nat),
      (userCheckRun limit today q uds uls l).1 = none ↔
        ∀ u ∈ l, effV uds uls today u + q ≤ limit := by
  intro l
  induction l with
  | nil => intro uds uls; simp [userCheckRun]
  | cons u rest ih =>
    intro uds uls
    simp only [userCheckRun]
    by_cases hc : (if uls u < today then upd uds u 0 else uds) u + q ≤ limit
    · rw [if_pos hc, ih]
      constructor
      · intro h v hv
        rcases List.mem_cons.mp hv with rfl | hv2
        · rw [← reset_read uds uls today v]; exact hc
        · rw [← effV_reset uds uls today u v]; exact h v hv2
      · intro h v hv
        rw [effV_reset uds uls today u v]
        exact h v (List.mem_cons_of_mem _ hv)
    · rw [if_neg hc]
      constructor
      · intro h; exact absurd h (by simp)
      · intro h
        rw [reset_read uds uls today u] at hc
        exact absurd (h u (List.mem_cons_self u rest)) hc

theorem userCheckRun_uds (limit today q : Nat) :
    ∀ (l : List Nat) (uds uls uds2 uls2 : Nat → Nat),
      userCheckRun limit today q uds uls l = (none, uds2, uls2) →
      ∀ u, uds2 u = if u ∈ l then effV uds uls today u else uds u := by
  intro l
  induction l with
  | nil =>
    intro uds uls uds2 uls2 h u
    simp only [userCheckRun, Prod.mk.injEq] at h
    simp [← h.2.1]
  | cons v rest ih =>
    intro uds uls uds2 uls2 h u
    simp only [userCheckRun] at h
    by_cases hc : (if uls v < today then upd uds v 0 else uds) v + q ≤ limit
    · rw [if_pos hc] at h
      have h2 := ih _ _ _ _ h u
      by_cases hmem : u ∈ rest
      · rw [if_pos hmem, effV_reset uds uls today v u] at h2
        rw [h2, if_pos (List.mem_cons_of_mem _ hmem)]
      · rw [if_neg hmem] at h2
        by_cases huv : u = v
        · subst huv
          rw [h2, reset_read uds uls today u, if_pos (List.mem_cons_self u rest)]
        · have hother : (if uls v < today then upd uds v 0 else uds) u = uds u := by
            by_cases hv : uls v < today
            · simp [hv, upd, huv]
            · simp [hv]
          rw [h2, hother, if_neg (by simp [huv, hmem])]
    · rw [if_neg hc] at h
      exact absurd (congrArg Prod.fst h) (by simp)

theorem creditUsers_apply (q : Nat) :
    ∀ (l : List Nat) (m : Nat → Nat) (u : Nat),
      creditUsers q m l u = m u + l.count u * q := by
  intro l
  induction l with
  | nil => intro m u; simp [creditUsers]
  | cons v rest ih =>
    intro m u
    rw [creditUsers, ih]
    by_cases hv : u = v
    · subst hv
      simp only [upd, if_pos rfl, List.count_cons, beq_self_eq_true, if_pos]
      ring_nf
    · have : (upd m v (m v + q)) u = m u := by simp [upd, hv]
      rw [this]
      have hcount : (v :: rest).count u = rest.count u := by
        simp [List.count_cons, hv]
      rw [hcount]

theorem claimRun_none_spec (st : SponsorState) (s today amount : Nat) (users : List Nat)
    (tOk : Bool) (st' : SponsorState)
    (h : claimRun st s today amount users tOk = (none, st')) :
    st.whitelistedRelayers s = true ∧ st.paused = false ∧
    effV st.relayerDailyClaimed st.relayerLastClaimDay today s
      + capReimb st.maxPerClaim amount ≤ st.dailyLimitPerRelayer ∧
    users.length ≠ 0 ∧
    (∀ u ∈ users, effV st.userDailySponsored st.userLastSponsorDay today u
      + capReimb st.maxPerClaim amount / users.length ≤ st.dailyLimitPerUser) ∧
    effGlobal st today + capReimb st.maxPerClaim amount ≤ st.globalDailyLimit ∧
    capReimb st.maxPerClaim amount ≤ st.balance ∧ tOk = true ∧
    st'.balance = st.balance - capReimb st.maxPerClaim amount ∧
    st'.totalClaimed = st.totalClaimed + capReimb st.maxPerClaim amount ∧
    st'.totalClaimCount = st.totalClaimCount + 1 ∧
    st'.relayerDailyClaimed s = effV st.relayerDailyClaimed st.relayerLastClaimDay today s
      + capReimb st.maxPerClaim amount ∧
    st'.globalDailyClaimed = effGlobal st today + capReimb st.maxPerClaim amount ∧
    (∀ u ∈ users, st'.userDailySponsored u
      = effV st.userDailySponsored st.userLastSponsorDay today u
        + users.count u * (capReimb st.maxPerClaim amount / users.length)) := by
  simp only [claimRun] at h
  by_cases hw : st.whitelistedRelayers s = false
  · rw [if_pos hw] at h; exact absurd h (by simp)
  rw [if_neg hw] at h
  by_cases hp : st.paused = true
  · rw [if_pos hp] at h; exact absurd h (by simp)
  rw [if_neg hp] at h
  by_cases hr : (if st.relayerLastClaimDay s < today
      then upd st.relayerDailyClaimed s 0 else st.relayerDailyClaimed) s
      + capReimb st.maxPerClaim amount > st.dailyLimitPerRelayer
  · rw [if_pos hr] at h; exact absurd h (by simp)
  rw [if_neg hr] at h
  by_cases hlen : users.length = 0
  · rw [if_pos hlen] at h; exact absurd h (by simp)
  rw [if_neg hlen] at h
  split at h
  next e uds2 uls2 huc => simp at h
  next uds2 uls2 huc =>
    by_cases hg : (if st.globalLastClaimDay < today then 0 else st.globalDailyClaimed)
        + capReimb st.maxPerClaim amount > st.globalDailyLimit
    · rw [if_pos hg] at h; exact absurd h (by simp)
    rw [if_neg hg] at h
    by_cases hb : st.balance < capReimb st.maxPerClaim amount
    · rw [if_pos hb] at h; exact absurd h (by simp)
    rw [if_neg hb] at h
    by_cases ht : tOk = false
    · rw [if_pos ht] at h; exact absurd h (by simp)
    rw [if_neg ht] at h
    simp only [Prod.mk.injEq, true_and] at h
    refine ⟨by simpa using hw, by simpa using hp, ?_, hlen, ?_, ?_, Nat.not_lt.mp hb,
      by simpa using ht, ?_, ?_, ?_, ?_, ?_, ?_⟩
    · rw [← reset_read st.relayerDailyClaimed st.relayerLastClaimDay today s]
      exact Nat.not_lt.mp hr
    · intro u hu
      have h1 : (userCheckRun st.dailyLimitPerUser today
          (capReimb st.maxPerClaim amount / users.length)
          st.userDailySponsored st.userLastSponsorDay users).1 = none := by rw [huc]
      exact (userCheckRun_none_iff st.dailyLimitPerUser today
        (capReimb st.maxPerClaim amount / users.length) users
        st.userDailySponsored st.userLastSponsorDay).mp h1 u hu
    · simpa [effGlobal] using Nat.not_lt.mp hg
    · rw [← h]
    · rw [← h]
    · rw [← h]
    · rw [← h]
      simp [upd, reset_read st.relayerDailyClaimed st.relayerLastClaimDay today s]
    · rw [← h]
      simp [effGlobal]
    · intro u hu
      rw [← h]
      show creditUsers (capReimb st.maxPerClaim amount / users.length) uds2 users u = _
      rw [creditUsers_apply, userCheckRun_uds _ today _ users _ _ _ _ huc u, if_pos hu]

theorem claimRun_none_intro (st : SponsorState) (s today amount : Nat) (users : List Nat)
    (hw : st.whitelistedRelayers s = true) (hp : st.paused = false)
    (hr : effV st.relayerDailyClaimed st.relayerLastClaimDay today s
      + capReimb st.maxPerClaim amount ≤ st.dailyLimitPerRelayer)
    (hlen : users.length ≠ 0)
    (hu : ∀ u ∈ users, effV st.userDailySponsored st.userLastSponsorDay today u
      + capReimb st.maxPerClaim amount / users.length ≤ st.dailyLimitPerUser)
    (hg : effGlobal st today + capReimb st.maxPerClaim amount ≤ st.globalDailyLimit)
    (hb : capReimb st.maxPerClaim amount ≤ st.balance) :
    (claimRun st s today amount users true).1 = none := by
  simp only [claimRun]
  rw [if_neg (by simp [hw]), if_neg (by simp [hp])]
  rw [if_neg (by
    rw [reset_read st.relayerDailyClaimed st.relayerLastClaimDay today s]
    exact Nat.not_lt.mpr hr)]
  rw [if_neg hlen]
  have h2 : (userCheckRun st.dailyLimitPerUser today
      (capReimb st.maxPerClaim amount / users.length)
      st.userDailySponsored st.userLastSponsorDay users).1 = none :=
    (userCheckRun_none_iff st.dailyLimitPerUser today
      (capReimb st.maxPerClaim amount / users.length) users
      st.userDailySponsored st.userLastSponsorDay).mpr hu
  split
  next e uds2 uls2 huc => rw [huc] at h2; exact absurd h2 (by simp)
  next uds2 uls2 huc =>
    rw [if_neg (by simpa [effGlobal] using Nat.not_lt.mpr hg)]
    rw [if_neg (Nat.not_lt.mpr hb)]
    rw [if_neg (by simp)]

theorem effV_eq (m l : Nat → Nat) (today u : Nat) :
    (if l u < today then (0 : Nat) else m u) = effV m l today u := rfl

theorem effGlobal_eq (st : SponsorState) (today : Nat) :
    (if st.globalLastClaimDay < today then (0 : Nat) else st.globalDailyClaimed)
      = effGlobal st today := rfl

theorem estimate_ok_true_iff (st : SponsorState) (s today amount : Nat) (users : List Nat)
    (r : Nat) :
    estimateReimbursement st s today amount users = Except.ok (r, true) ↔
      (capReimb st.maxPerClaim amount ≤ st.balance ∧
       effV st.relayerDailyClaimed st.relayerLastClaimDay today s
         + capReimb st.maxPerClaim amount ≤ st.dailyLimitPerRelayer ∧
       effGlobal st today + capReimb st.maxPerClaim amount ≤ st.globalDailyLimit ∧
       users.length ≠ 0 ∧
       (∀ u ∈ users, effV st.userDailySponsored st.userLastSponsorDay today u
         + capReimb st.maxPerClaim amount / users.length ≤ st.dailyLimitPerUser) ∧
       r = capReimb st.maxPerClaim amount) := by
  simp only [estimateReimbursement]
  by_cases h1 : st.balance < capReimb st.maxPerClaim amount
  · rw [if_pos h1]
    constructor
    · intro hcontra; simp at hcontra
    · intro hcontra; exact absurd hcontra.1 (Nat.not_le.mpr h1)
  rw [if_neg h1]
  rw [effV_eq st.relayerDailyClaimed st.relayerLastClaimDay today s]
  by_cases h2 : effV st.relayerDailyClaimed st.relayerLastClaimDay today s
      + capReimb st.maxPerClaim amount > st.dailyLimitPerRelayer
  · rw [if_pos h2]
    constructor
    · intro hcontra; simp at hcontra
    · intro hcontra; exact absurd hcontra.2.1 (Nat.not_le.mpr h2)
  rw [if_neg h2]
  rw [effGlobal_eq st today]
  by_cases h3 : effGlobal st today + capReimb st.maxPerClaim amount > st.globalDailyLimit
  · rw [if_pos h3]
    constructor
    · intro hcontra; simp at hcontra
    · intro hcontra; exact absurd hcontra.2.2.1 (Nat.not_le.mpr h3)
  rw [if_neg h3]
  by_cases h4 : users.length = 0
  · rw [if_pos h4]
    constructor
    · intro hcontra; simp at hcontra
    · intro hcontra; exact absurd h4 hcontra.2.2.2.1
  rw [if_neg h4]
  by_cases h5 : estUserCheck st.dailyLimitPerUser today
      (capReimb st.maxPerClaim amount / users.length)
      st.userDailySponsored st.userLastSponsorDay users = true
  · rw [if_pos h5]
    constructor
    · intro hok
      have hr : r = capReimb st.maxPerClaim amount := by
        have := hok
        simp only [Except.ok.injEq, Prod.mk.injEq] at this
        exact this.1.symm
      exact ⟨Nat.not_lt.mp h1, Nat.not_lt.mp h2, Nat.not_lt.mp h3, h4,
        (estUserCheck_true_iff st.dailyLimitPerUser today
          (capReimb st.maxPerClaim amount / users.length)
          st.userDailySponsored st.userLastSponsorDay users).mp h5, hr⟩
    · intro hch
      rw [hch.2.2.2.2.2]
  · rw [if_neg h5]
    constructor
    · intro hcontra; simp at hcontra
    · intro hch
      exact absurd ((estUserCheck_true_iff st.dailyLimitPerUser today
        (capReimb st.maxPerClaim amount / users.length)
        st.userDailySponsored st.userLastSponsorDay users).mpr hch.2.2.2.2.1) h5

/-- C4: any failing check makes the whole claim revert: the transaction
returns that error with the state exactly as before the call, even though
the raw execution had already performed lazy counter resets and day-stamp
writes before the failing check. -/
theorem claim_abort_is_atomic (st : SponsorState) (s today amount : Nat) (users : List Nat)
    (tOk : Bool) (e : ClaimErr) (stp : SponsorState)
    (h : claimRun st s today amount users tOk = (some e, stp)) :
    claimCall st s today amount users tOk = (some e, st) := by
  unfold claimCall
  rw [h]

/-- C2 (amended): a claim with an empty beneficiary list always reverts
with the pre-call state intact; the revert comes from the division-by-zero
panic at the per-beneficiary split (or an earlier failing check), not from
an explicit ZeroBeneficiaries check. -/
theorem claim_empty_list_reverts (st : SponsorState) (s today amount : Nat) (tOk : Bool) :
    ∃ e, claimCall st s today amount [] tOk = (some e, st) := by
  rcases hcr : claimRun st s today amount [] tOk with ⟨eo, stp⟩
  cases eo with
  | none =>
    have hlen := (claimRun_none_spec st s today amount [] tOk stp hcr).2.2.2.1
    simp at hlen
  | some e =>
    refine ⟨e, ?_⟩
    unfold claimCall
    rw [hcr]

/-- C5 (amended): a successful claim requesting more than maxPerClaim
transfers exactly maxPerClaim, and adds exactly maxPerClaim to the
submitter counter, the global counter and totalClaimed; the per-beneficiary
counters receive the integer share maxPerClaim / count each occurrence, so
their aggregate increment never exceeds maxPerClaim. -/
theorem claim_transfer_capped (st : SponsorState) (s today amount : Nat) (users : List Nat)
    (tOk : Bool) (st' : SponsorState)
    (hgt : amount > st.maxPerClaim)
    (h : claimRun st s today amount users tOk = (none, st')) :
    st'.balance + st.maxPerClaim = st.balance ∧
    st'.totalClaimed = st.totalClaimed + st.maxPerClaim ∧
    st'.relayerDailyClaimed s
      = effV st.relayerDailyClaimed st.relayerLastClaimDay today s + st.maxPerClaim ∧
    st'.globalDailyClaimed = effGlobal st today + st.maxPerClaim ∧
    (∀ u ∈ users, st'.userDailySponsored u
      = effV st.userDailySponsored st.userLastSponsorDay today u
        + users.count u * (st.maxPerClaim / users.length)) ∧
    users.length * (st.maxPerClaim / users.length) ≤ st.maxPerClaim := by
  have hcap : capReimb st.maxPerClaim amount = st.maxPerClaim := by
    unfold capReimb; rw [if_pos hgt]
  obtain ⟨-, -, -, -, -, -, hbal, -, h9, h10, -, h12, h13, h14⟩ :=
    claimRun_none_spec st s today amount users tOk st' h
  rw [hcap] at hbal h9 h10 h12 h13 h14
  refine ⟨?_, h10, h12, h13, h14, ?_⟩
  · rw [h9, Nat.sub_add_cancel hbal]
  · rw [Nat.mul_comm]; exact Nat.div_mul_le_self _ _

/-- C9: in a successful claim the per-beneficiary increments are the
integer quotient of the capped reimbursement by the count, one per list
occurrence, and their total, count times the quotient, never exceeds the
capped reimbursement: the rounding remainder is lost, never over-counted. -/
theorem claim_split_never_overcounts (st : SponsorState) (s today amount : Nat)
    (users : List Nat) (tOk : Bool) (st' : SponsorState)
    (h : claimRun st s today amount users tOk = (none, st')) :
    users.length * (capReimb st.maxPerClaim amount / users.length)
      ≤ capReimb st.maxPerClaim amount ∧
    (∀ u ∈ users, st'.userDailySponsored u
      = effV st.userDailySponsored st.userLastSponsorDay today u
        + users.count u * (capReimb st.maxPerClaim amount / users.length)) ∧
    st'.totalClaimed = st.totalClaimed + capReimb st.maxPerClaim amount := by
  obtain ⟨-, -, -, -, -, -, -, -, -, h10, -, -, -, h14⟩ :=
    claimRun_none_spec st s today amount users tOk st' h
  refine ⟨?_, h14, h10⟩
  rw [Nat.mul_comm]; exact Nat.div_mul_le_self _ _

/-- C6 (amended): for a whitelisted, unpaused submitter,
estimateReimbursement mutates nothing and agrees with claim up to the final
transfer: a (r, true) answer means the claim with a succeeding transfer
succeeds and pays exactly r; a claim success means the estimate answers
(cappedReimbursement, true); and a (0, false) answer means the claim
reverts.  The agreement stops at the transfer itself and at the empty
beneficiary list, where both sides revert at the division instead of the
estimate returning false. -/
theorem estimate_matches_claim (st : SponsorState) (s today amount : Nat) (users : List Nat)
    (hw : st.whitelistedRelayers s = true) (hp : st.paused = false) :
    (∀ r, estimateReimbursement st s today amount users = Except.ok (r, true) →
      (claimRun st s today amount users true).1 = none ∧
      st.balance = (claimRun st s today amount users true).2.balance + r) ∧
    ((claimRun st s today amount users true).1 = none →
      estimateReimbursement st s today amount users
        = Except.ok (capReimb st.maxPerClaim amount, true)) ∧
    (estimateReimbursement st s today amount users = Except.ok (0, false) →
      (claimRun st s today amount users true).1 ≠ none) := by
  have hmain : (claimRun st s today amount users true).1 = none →
      estimateReimbursement st s today amount users
        = Except.ok (capReimb st.maxPerClaim amount, true) := by
    intro hnone
    rcases hcr : claimRun st s today amount users true with ⟨eo, st'⟩
    rw [hcr] at hnone
    simp only at hnone
    subst hnone
    obtain ⟨-, -, hr, hlen, hu, hg, hb, -, -, -, -, -, -, -⟩ :=
      claimRun_none_spec st s today amount users true st' hcr
    exact (estimate_ok_true_iff st s today amount users _).mpr ⟨hb, hr, hg, hlen, hu, rfl⟩
  refine ⟨?_, hmain, ?_⟩
  · intro r hest
    obtain ⟨hb, hr, hg, hlen, hu, hreq⟩ :=
      (estimate_ok_true_iff st s today amount users r).mp hest
    have hnone := claimRun_none_intro st s today amount users hw hp hr hlen hu hg hb
    refine ⟨hnone, ?_⟩
    rcases hcr : claimRun st s today amount users true with ⟨eo, st'⟩
    rw [hcr] at hnone
    simp only at hnone
    subst hnone
    have hbal := (claimRun_none_spec st s today amount users true st' hcr).2.2.2.2.2.2.2.2.1
    show st.balance = st'.balance + r
    rw [hbal, hreq, Nat.sub_add_cancel hb]
  · intro hest hnone
    have hEq := hmain hnone
    rw [hEq] at hest
    simp at hest

/-- C10: deposit() rejects a zero amount, while the plain-transfer receive
path accepts every amount, zero included, and still adds the amount to
totalDeposited and the pool balance and appends a Deposited event. -/
theorem receive_bypasses_deposit_zero_check (st : SponsorState) (sender : Nat) :
    deposit st sender 0 = Except.error ClaimErr.zeroDeposit ∧
    ∀ v, (receiveEth st sender v).totalDeposited = st.totalDeposited + v ∧
      (receiveEth st sender v).log = st.log ++ [Event.deposited sender v] ∧
      (receiveEth st sender v).balance = st.balance + v := by
  exact ⟨by simp [deposit], fun v => ⟨rfl, rfl, rfl⟩⟩

/-- C2 counterexample: on a whitelisted, unpaused, within-cap state, a
claim with an empty beneficiary list reverts with the division-by-zero
panic, not with the explicit ZeroBeneficiaries error the claim names. -/
theorem claim_empty_list_counterexample :
    (claimRun stW 1 5 10 [] true).1 = some ClaimErr.divisionByZero ∧
    (claimRun stW 1 5 10 [] true).1 ≠ some ClaimErr.zeroBeneficiaries :=
  ⟨by decide, by decide⟩

theorem claim_abort_is_atomic_witness :
    (claimRun stW 1 5 10 [7] true).1 = some ClaimErr.userDailyLimit ∧
    (claimRun stW 1 5 10 [7] true).2.relayerLastClaimDay 1 = 5 ∧
    stW.relayerLastClaimDay 1 = 0 ∧
    claimCall stW 1 5 10 [7] true = (some ClaimErr.userDailyLimit, stW) :=
  ⟨by decide, by decide, by decide,
    claim_abort_is_atomic stW 1 5 10 [7] true ClaimErr.userDailyLimit
      (claimRun stW 1 5 10 [7] true).2
      (by
        have h1 : (claimRun stW 1 5 10 [7] true).1 = some ClaimErr.userDailyLimit := by decide
        calc claimRun stW 1 5 10 [7] true
            = ((claimRun stW 1 5 10 [7] true).1, (claimRun stW 1 5 10 [7] true).2) := rfl
          _ = (some ClaimErr.userDailyLimit, (claimRun stW 1 5 10 [7] true).2) := by
              rw [h1])⟩

/-- C5 counterexample: requesting 7 against cap 5 with two beneficiaries,
the claim succeeds and transfers exactly the cap, yet the aggregate
increment of the beneficiary counters is 2 + 2 = 4, not the cap 5: the
amount added to the beneficiaries is not exactly maxPerClaim. -/
theorem claim_capped_counterexample :
    7 > stC5.maxPerClaim ∧
    (claimRun stC5 1 0 7 [10, 11] true).1 = none ∧
    stC5.balance = (claimRun stC5 1 0 7 [10, 11] true).2.balance + stC5.maxPerClaim ∧
    ((claimRun stC5 1 0 7 [10, 11] true).2.userDailySponsored 10
        - stC5.userDailySponsored 10)
      + ((claimRun stC5 1 0 7 [10, 11] true).2.userDailySponsored 11
        - stC5.userDailySponsored 11) ≠ stC5.maxPerClaim :=
  ⟨by decide, by decide, by decide, by decide⟩

theorem claim_transfer_capped_witness :
    7 > stC5.maxPerClaim ∧
    ((claimRun stC5 1 0 7 [10, 11] true).2.balance + stC5.maxPerClaim = stC5.balance ∧
     (claimRun stC5 1 0 7 [10, 11] true).2.totalClaimed
       = stC5.totalClaimed + stC5.maxPerClaim ∧
     (claimRun stC5 1 0 7 [10, 11] true).2.relayerDailyClaimed 1
       = effV stC5.relayerDailyClaimed stC5.relayerLastClaimDay 0 1 + stC5.maxPerClaim ∧
     (claimRun stC5 1 0 7 [10, 11] true).2.globalDailyClaimed
       = effGlobal stC5 0 + stC5.maxPerClaim ∧
     (∀ u ∈ [10, 11], (claimRun stC5 1 0 7 [10, 11] true).2.userDailySponsored u
       = effV stC5.userDailySponsored stC5.userLastSponsorDay 0 u
         + [10, 11].count u * (stC5.maxPerClaim / [10, 11].length)) ∧
     [10, 11].length * (stC5.maxPerClaim / [10, 11].length) ≤ stC5.maxPerClaim) :=
  ⟨by decide,
    claim_transfer_capped stC5 1 0 7 [10, 11] true
      (claimRun stC5 1 0 7 [10, 11] true).2 (by decide)
      (by
        have h1 : (claimRun stC5 1 0 7 [10, 11] true).1 = none := by decide
        calc claimRun stC5 1 0 7 [10, 11] true
            = ((claimRun stC5 1 0 7 [10, 11] true).1,
               (claimRun stC5 1 0 7 [10, 11] true).2) := rfl
          _ = (none, (claimRun stC5 1 0 7 [10, 11] true).2) := by rw [h1])⟩

theorem claim_split_never_overcounts_witness :
    ([10, 11, 12].length * (capReimb stC5.maxPerClaim 10 / [10, 11, 12].length)
        ≤ capReimb stC5.maxPerClaim 10) ∧
    (∀ u ∈ [10, 11, 12], (claimRun stC5 1 0 10 [10, 11, 12] true).2.userDailySponsored u
      = effV stC5.userDailySponsored stC5.userLastSponsorDay 0 u
        + [10, 11, 12].count u * (capReimb stC5.maxPerClaim 10 / [10, 11, 12].length)) ∧
    (claimRun stC5 1 0 10 [10, 11, 12] true).2.totalClaimed
      = stC5.totalClaimed + capReimb stC5.maxPerClaim 10 :=
  claim_split_never_overcounts stC5 1 0 10 [10, 11, 12] true
    (claimRun stC5 1 0 10 [10, 11, 12] true).2
    (by
      have h1 : (claimRun stC5 1 0 10 [10, 11, 12] true).1 = none := by decide
      calc claimRun stC5 1 0 10 [10, 11, 12] true
          = ((claimRun stC5 1 0 10 [10, 11, 12] true).1,
             (claimRun stC5 1 0 10 [10, 11, 12] true).2) := rfl
        _ = (none, (claimRun stC5 1 0 10 [10, 11, 12] true).2) := by rw [h1])

/-- C6 counterexample: with every check passing, the estimate answers
(5, true) while the same claim whose final transfer fails reverts; and on
an empty beneficiary list the claim reverts while the estimate also
reverts at the division instead of returning wouldSucceed = false. -/
theorem estimate_mismatch_counterexample :
    estimateReimbursement stC5 1 0 7 [10, 11] = Except.ok (5, true) ∧
    (claimRun stC5 1 0 7 [10, 11] false).1 = some ClaimErr.transferFailed ∧
    (claimRun stC5 1 0 7 [] true).1 = some ClaimErr.divisionByZero ∧
    estimateReimbursement stC5 1 0 7 [] = Except.error ClaimErr.divisionByZero :=
  ⟨by decide, by decide, by decide, by decide⟩

theorem estimate_matches_claim_witness :
    stC5.whitelistedRelayers 1 = true ∧ stC5.paused = false ∧
    ((∀ r, estimateReimbursement stC5 1 0 7 [10, 11] = Except.ok (r, true) →
        (claimRun stC5 1 0 7 [10, 11] true).1 = none ∧
        stC5.balance = (claimRun stC5 1 0 7 [10, 11] true).2.balance + r) ∧
     ((claimRun stC5 1 0 7 [10, 11] true).1 = none →
        estimateReimbursement stC5 1 0 7 [10, 11]
          = Except.ok (capReimb stC5.maxPerClaim 7, true)) ∧
     (estimateReimbursement stC5 1 0 7 [10, 11] = Except.ok (0, false) →
        (claimRun stC5 1 0 7 [10, 11] true).1 ≠ none)) :=
  ⟨by decide, by decide, estimate_matches_claim stC5 1 0 7 [10, 11] (by decide) (by decide)⟩

end BatchRelay
